import Mathlib

/-!
Verification development for the AlphaVantage API client
(`alphaVantageAPI/alphavantage.py`).  The Python class is shallowly embedded:
dictionaries become ordered association lists over `String` keys, Python
numbers become `Int`/`ℚ`, HTTP traffic is modelled by the parameter maps the
client hands to the transport, and operations that can raise return `Option`
(`none` = an uncaught exception).  All definitions are written with structural
recursion so that concrete runs evaluate inside the kernel.
-/

/-- Value stored in a Python parameter/keyword dictionary: a string, an
integer, a float (modelled as an exact rational; the claims only exercise
values such as `0.5` that binary floats represent exactly), a list of strings
(the `symbol` argument may be a list), or `None`. -/
inductive PVal where
  | str (s : String)
  | int (n : Int)
  | rat (q : ℚ)
  | listStr (l : List String)
  | noneV
deriving DecidableEq

/-- A Python `dict` with string keys, kept in insertion order. -/
abbrev Params := List (String × PVal)

/-- Keyword arguments (`**kwargs`) passed to the client methods. -/
abbrev Kwargs := List (String × PVal)

/-- Dictionary read `d[k]` / `k in d`: first entry with the given key. -/
def dlookup {α : Type} (k : String) : List (String × α) → Option α
  | [] => none
  | (k₁, v) :: rest => if k₁ = k then some v else dlookup k rest

/-- Dictionary write `d[k] = v`: update the entry in place if the key is
present (keeping its position), otherwise append a new entry, exactly as a
Python `dict` behaves. -/
def dinsert {α : Type} (d : List (String × α)) (k : String) (v : α) : List (String × α) :=
  if (dlookup k d).isSome then d.map (fun p => if p.1 = k then (k, v) else p)
  else d ++ [(k, v)]

/-- Build a dict from a list of key/value pairs the way a Python dict
comprehension does: later pairs overwrite earlier ones. -/
def pyDict {α : Type} (l : List (String × α)) : List (String × α) :=
  l.foldl (fun d kv => dinsert d kv.1 kv.2) []

/-- Python `str.upper` restricted to the basic-latin letters the library's
symbols and function names use. -/
def upstr (s : String) : String := ⟨s.data.map Char.toUpper⟩

/-- Python `str.startswith`. -/
def pyStartsWith (s pat : String) : Bool := pat.data.isPrefixOf s.data

/-- Digit-string parser: `some n` when the characters are a nonempty run of
decimal digits (the fragment of Python `int`/`float` parsing the data uses). -/
def parseDigits (cs : List Char) : Option Nat :=
  if cs ≠ [] ∧ cs.all Char.isDigit then
    some (cs.foldl (fun n c => n * 10 + (c.toNat - 48)) 0)
  else none

/-- Python `int(s)` on an optionally `-`-signed digit string. -/
def parseInt (s : String) : Option Int :=
  match s.data with
  | '-' :: rest => (parseDigits rest).map (fun n => -(n : Int))
  | cs => (parseDigits cs).map (fun n => (n : Int))

/-- Replace every non-overlapping occurrence of `pat` by `repl`, scanning left
to right (the behaviour of `re.sub` on a literal pattern).  The fuel argument
is the input length; one character is consumed per step, so it never runs out. -/
def replaceAux (pat repl : List Char) : Nat → List Char → List Char
  | 0, cs => cs
  | _ + 1, [] => []
  | fuel + 1, c :: rest =>
    if pat ≠ [] ∧ pat.isPrefixOf (c :: rest) then
      repl ++ replaceAux pat repl fuel (List.drop (pat.length - 1) rest)
    else c :: replaceAux pat repl fuel rest

/-- Replace every occurrence of `pat` by `repl` in `cs`. -/
def replaceAll (pat repl cs : List Char) : List Char :=
  replaceAux pat repl cs.length cs

/-- Source line 382: `re.sub(r'min', '', x)`. -/
def stripMin (s : String) : String := ⟨replaceAll "min".data [] s.data⟩

/-- Python `float(s)` for plain decimal literals `[-]digits[.digits]`, the
shape AlphaVantage responses use (exponent/`nan`/leading-dot forms are outside
the data this client sees and are not modelled). -/
def parseFloat (s : String) : Option ℚ :=
  let (sgn, cs) : Int × List Char :=
    match s.data with
    | '-' :: rest => (-1, rest)
    | cs => (1, cs)
  match cs.splitOn '.' with
  | [a] => (parseDigits a).map (fun n => mkRat (sgn * (n : Int)) 1)
  | [a, b] =>
    match parseDigits a, parseDigits b with
    | some n, some f => some (mkRat (sgn * ((n * 10 ^ b.length + f : Nat) : Int)) (10 ^ b.length))
    | _, _ => none
  | _ => none

/-- Python `sep.join(l)`. -/
def joinWith (sep : String) : List String → String
  | [] => ""
  | [s] => s
  | s :: rest => s ++ sep ++ joinWith sep rest

/-- Effectful map over `Option`, written with plain structural recursion
(`none` propagates the first failure). -/
def mapOption {α β : Type} (f : α → Option β) : List α → Option (List β)
  | [] => some []
  | a :: as =>
    match f a, mapOption f as with
    | some b, some bs => some (b :: bs)
    | _, _ => none

/-- Lexicographic code-point comparison of character lists (the order Python
uses for `str` and pandas uses for a string index). -/
def charListLt : List Char → List Char → Bool
  | [], [] => false
  | [], _ :: _ => true
  | _ :: _, [] => false
  | a :: as, b :: bs =>
    if a.toNat < b.toNat then true
    else if a.toNat = b.toNat then charListLt as bs
    else false

/-- Strict string order by code points, as Python compares timestamps. -/
def pyLt (a b : String) : Bool := charListLt a.data b.data

/-- One entry of the bundled API descriptor (`data/api.json`): canonical
function name, short alias, and the optional `required`/`optional` parameter
lists (`none` models an absent JSON key). -/
structure FnEntry where
  function : String
  aliasName : String
  required : Option (List String)
  optional : Option (List String)
deriving DecidableEq

/-- The loaded descriptor, mirroring `_api_lists` (source lines 128-141):
series and indicator entries plus the supporting token lists. -/
structure Catalog where
  series : List FnEntry
  indicator : List FnEntry
  datatype : List String
  outputsize : List String
  series_interval : List String
  matype : List Int
deriving DecidableEq

/-- Modelled from the spec: the bundled descriptor `data/api.json` is not part
of `src/`, so a representative catalog is reconstructed from §3/§6 of the spec
and the canonical names the source itself mentions (`TIME_SERIES_INTRADAY`,
`CURRENCY_EXCHANGE_RATE`, `SECTOR`, `BATCH_STOCK_QUOTES`, the `CD` digital
alias, intraday intervals `1min`..`60min`, matype codes, and the indicator
examples named in the spec's glossary and §8, e.g. `RSI` and `MAMA`). -/
def specCatalog : Catalog :=
  { series :=
      [ ⟨"TIME_SERIES_INTRADAY", "I", some ["symbol", "interval"], none⟩
      , ⟨"TIME_SERIES_DAILY", "D", some ["symbol"], none⟩
      , ⟨"TIME_SERIES_WEEKLY", "W", some ["symbol"], none⟩
      , ⟨"CURRENCY_EXCHANGE_RATE", "FX", some ["from_currency", "to_currency"], none⟩
      , ⟨"SECTOR", "S", none, none⟩
      , ⟨"BATCH_STOCK_QUOTES", "B", some ["symbols"], none⟩
      , ⟨"DIGITAL_CURRENCY_DAILY", "CD", some ["symbol", "market"], none⟩ ]
  , indicator :=
      [ ⟨"RSI", "RSI", some ["symbol", "interval", "time_period", "series_type"], none⟩
      , ⟨"MAMA", "MAMA", some ["symbol", "interval", "series_type"],
          some ["fastlimit", "slowlimit"]⟩
      , ⟨"BBANDS", "BBANDS", some ["symbol", "interval", "time_period", "series_type"],
          some ["nbdevup", "nbdevdn", "matype"]⟩ ]
  , datatype := ["json", "csv"]
  , outputsize := ["compact", "full"]
  , series_interval := ["1min", "5min", "15min", "30min", "60min"]
  , matype := [0, 1, 2, 3, 4, 5, 6, 7, 8] }

/-- Source line 133: `{x['alias']: x['function'] for x in series}`. -/
def apiFunction (cat : Catalog) : List (String × String) :=
  pyDict (cat.series.map (fun x => (x.aliasName, x.function)))

/-- Source line 134: `{v: k for k, v in api_function.items()}`. -/
def apiFunctionInv (cat : Catalog) : List (String × String) :=
  pyDict ((apiFunction cat).map (fun kv => (kv.2, kv.1)))

/-- Source line 140: the list of indicator canonical names. -/
def apiIndicator (cat : Catalog) : List String :=
  cat.indicator.map (fun x => x.function)

/-- Source lines 158-161, `_function_alias`: inverse lookup with identity
fallback. -/
def functionAlias (cat : Catalog) (function : String) : String :=
  match dlookup function (apiFunctionInv cat) with
  | some a => a
  | none => function

/-- Source line 410: `api_function[function] if function not in api_indicator
else function`; `none` is the `KeyError` case. -/
def resolveFunction (cat : Catalog) (function : String) : Option String :=
  if function ∈ apiIndicator cat then some function
  else dlookup function (apiFunction cat)

/-- Reading `x[kind]` from an entry when the key is present (`kind in x`). -/
def fieldOf (kind : String) (x : FnEntry) : Option (List String) :=
  if kind = "required" then x.required
  else if kind = "optional" then x.optional
  else none

/-- Source lines 164-174, `_parameters`: the last matching entry's list
(`.pop()` takes the tail of the comprehension; `IndexError` leaves `[]`). -/
def parametersOf (cat : Catalog) (function : String) (kind : String) : List String :=
  if kind = "required" ∨ kind = "optional" then
    ((((cat.series ++ cat.indicator).filterMap
        (fun x => if x.function = function then fieldOf kind x else none)).getLast?).getD [])
  else []

/-- Source line 382: the integer minute counts derived from the catalog's
interval tokens (`int(re.sub(r'min', '', x))`; with the catalog's tokens the
`int` conversion always succeeds). -/
def intradayMinutes (cat : Catalog) : List Int :=
  cat.series_interval.filterMap (fun x => parseInt (stripMin x))

/-- The session configuration fields the modelled operations read (export is a
filesystem side effect whose path computation is modelled by `savePath`). -/
structure ClientConfig where
  api_key : String
  datatype : String
  output_size : String
  output : String
  export_path : String
  clean : Bool
deriving DecidableEq

/-- Numeric view of a keyword value, for `math.fabs`/`float`/`int` coercions
(`none` = the Python coercion would raise on a non-numeric value). -/
def numQ : PVal → Option ℚ
  | PVal.int n => some (n : ℚ)
  | PVal.rat q => some q
  | _ => none

/-- Python `int(math.fabs(q))`: truncation of the absolute value, computed on
the exact rational as `|numerator| / denominator`. -/
def ratTruncAbs (q : ℚ) : Int := ((q.num.natAbs / q.den : Nat) : Int)

/-- Keyword fetch with `int(math.fabs(·))` coercion:
`some none` = key absent, `some (some v)` = coerced value, `none` = raise. -/
def lkAbsInt (kw : Kwargs) (name : String) : Option (Option Int) :=
  match dlookup name kw with
  | none => some none
  | some v => (numQ v).map (fun q => some (ratTruncAbs q))

/-- Keyword fetch with `math.fabs(·)` (optionally through `float`) coercion. -/
def lkAbs (kw : Kwargs) (name : String) : Option (Option ℚ) :=
  match dlookup name kw with
  | none => some none
  | some v => (numQ v).map (fun q => some |q|)

/-- One block of `_validate_parameters` for an always-accepted
integer-coerced option (`int(math.fabs(kw[name]))`): the value is coerced
whenever the key is present (a non-numeric value raises, the outer `none`),
and attached only when `option` names it. -/
def vpIntOpt (option name : String) (ps : Params) (kw : Kwargs) : Option Params :=
  (lkAbsInt kw name).map (fun v =>
    match v with
    | some m => if option = name then dinsert ps name (PVal.int m) else ps
    | none => ps)

/-- One block of `_validate_parameters` for a moving-average-type option:
as `vpIntOpt`, accepted only when the coerced code is a catalog matype. -/
def vpIntMatype (matypes : List Int) (option name : String) (ps : Params) (kw : Kwargs) :
    Option Params :=
  (lkAbsInt kw name).map (fun v =>
    match v with
    | some m => if option = name ∧ m ∈ matypes then dinsert ps name (PVal.int m) else ps
    | none => ps)

/-- One block of `_validate_parameters` for an always-accepted real option
(`math.fabs(...)`, possibly through `float`). -/
def vpRatOpt (option name : String) (ps : Params) (kw : Kwargs) : Option Params :=
  (lkAbs kw name).map (fun v =>
    match v with
    | some x => if option = name then dinsert ps name (PVal.rat x) else ps
    | none => ps)

/-- One block of `_validate_parameters` for `fastlimit`/`slowlimit`: accepted
only when the coerced absolute value lies strictly between 0 and 1
(source lines 473-478). -/
def vpRatLimit (option name : String) (ps : Params) (kw : Kwargs) : Option Params :=
  (lkAbs kw name).map (fun v =>
    match v with
    | some x => if option = name ∧ 0 < x ∧ x < 1 then dinsert ps name (PVal.rat x) else ps
    | none => ps)

/-- Blocks 1-6 of `_validate_parameters` in source order: `matype`,
`nbdevup`, `nbdevdn`, `timeperiod1`, `timeperiod2`, `timeperiod3`. -/
def vpBlock1 (matypes : List Int) (option : String) (ps : Params) (kw : Kwargs) :
    Option Params :=
  vpIntMatype matypes option "matype" ps kw >>= fun (ps : Params) =>
  vpRatOpt option "nbdevup" ps kw >>= fun (ps : Params) =>
  vpRatOpt option "nbdevdn" ps kw >>= fun (ps : Params) =>
  vpIntOpt option "timeperiod1" ps kw >>= fun (ps : Params) =>
  vpIntOpt option "timeperiod2" ps kw >>= fun (ps : Params) =>
  vpIntOpt option "timeperiod3" ps kw

/-- Blocks 7-12 of `_validate_parameters` in source order: `acceleration`,
`maximum`, `fastlimit`, `slowlimit`, `fastperiod`, `slowperiod`. -/
def vpBlock2 (option : String) (ps : Params) (kw : Kwargs) : Option Params :=
  vpRatOpt option "acceleration" ps kw >>= fun (ps : Params) =>
  vpRatOpt option "maximum" ps kw >>= fun (ps : Params) =>
  vpRatLimit option "fastlimit" ps kw >>= fun (ps : Params) =>
  vpRatLimit option "slowlimit" ps kw >>= fun (ps : Params) =>
  vpIntOpt option "fastperiod" ps kw >>= fun (ps : Params) =>
  vpIntOpt option "slowperiod" ps kw

/-- Blocks 13-18 of `_validate_parameters` in source order: `signalperiod`,
`fastmatype`, `slowmatype`, `signalmatype`, `fastkperiod`, `fastdperiod`. -/
def vpBlock3 (matypes : List Int) (option : String) (ps : Params) (kw : Kwargs) :
    Option Params :=
  vpIntOpt option "signalperiod" ps kw >>= fun (ps : Params) =>
  vpIntMatype matypes option "fastmatype" ps kw >>= fun (ps : Params) =>
  vpIntMatype matypes option "slowmatype" ps kw >>= fun (ps : Params) =>
  vpIntMatype matypes option "signalmatype" ps kw >>= fun (ps : Params) =>
  vpIntOpt option "fastkperiod" ps kw >>= fun (ps : Params) =>
  vpIntOpt option "fastdperiod" ps kw

/-- Blocks 19-23 of `_validate_parameters` in source order: `fastdmatype`,
`slowkperiod`, `slowdperiod`, `slowkmatype`, `slowdmatype`. -/
def vpBlock4 (matypes : List Int) (option : String) (ps : Params) (kw : Kwargs) :
    Option Params :=
  vpIntMatype matypes option "fastdmatype" ps kw >>= fun (ps : Params) =>
  vpIntOpt option "slowkperiod" ps kw >>= fun (ps : Params) =>
  vpIntOpt option "slowdperiod" ps kw >>= fun (ps : Params) =>
  vpIntMatype matypes option "slowkmatype" ps kw >>= fun (ps : Params) =>
  vpIntMatype matypes option "slowdmatype" ps kw

/-- Source lines 437-527, `_validate_parameters`: every recognised optional
parameter is coerced when present (a present non-numeric value raises, hence
the outer `Option`), and the entry matching `option` is attached to the
parameter map under its acceptance rule.  One `vp` step per source block, in
source order. -/
def validateParameters (matypes : List Int) (option : String) (ps : Params) (kw : Kwargs) :
    Option Params :=
  vpBlock1 matypes option ps kw >>= fun (ps : Params) =>
  vpBlock2 option ps kw >>= fun (ps : Params) =>
  vpBlock3 matypes option ps kw >>= fun (ps : Params) =>
  vpBlock4 matypes option ps kw

/-- The `symbol` argument of `data`: a string, a list, or `None`. -/
inductive SymArg where
  | strS (s : String)
  | listS (l : List String)
  | noneS
deriving DecidableEq

/-- The dictionary value a symbol argument contributes to the parameter map. -/
def symPVal : SymArg → PVal
  | SymArg.strS s => PVal.str s
  | SymArg.listS l => PVal.listStr l
  | SymArg.noneS => PVal.noneV

/-- Source lines 417-431: assemble the parameter map for `data` — base
`{function, symbol}`, `datatype`/`outputsize` for non-indicators, required
parameters copied verbatim from the keyword arguments, optional parameters
through `validateParameters` (whose raises propagate as `none`). -/
def buildParams (cat : Catalog) (cfg : ClientConfig) (function : String) (symbol : SymArg)
    (kw : Kwargs) : Option Params :=
  let ps : Params := [("function", PVal.str function), ("symbol", symPVal symbol)]
  let ps :=
    if function ∈ apiIndicator cat then ps
    else dinsert (dinsert ps "datatype" (PVal.str cfg.datatype)) "outputsize"
      (PVal.str cfg.output_size)
  let req := parametersOf cat function "required"
  let ps := req.foldl (fun ps r =>
    match dlookup r kw with
    | some v => dinsert ps r v
    | none => ps) ps
  let opt := parametersOf cat function "optional"
  opt.foldlM (fun ps o =>
    if (dlookup o kw).isSome then validateParameters cat.matype o ps kw else pure ps) ps

/-- Observable outcome of a `data` call: the transport's response for a
parameter map, a list of per-symbol results, an uncaught exception, or hitting
the recursion limit (`RecursionError`). -/
inductive DataResult where
  | frame (ps : Params)
  | listRes (rs : List DataResult)
  | raise
  | diverges

/-- Discriminator for the two outcomes that abort a surrounding computation
(an exception or the recursion limit). -/
def isAbort : DataResult → Bool
  | DataResult.raise => true
  | DataResult.diverges => true
  | _ => false

/-- Source line 400: the comprehension `[self.data(function, t) for t in
symbols]`, evaluated left to right; an exception aborts the remaining calls
and propagates (`Sum.inr`).  The first component collects the parameter maps
handed to the transport. -/
def dataMap (d : String → List Params × DataResult) :
    List String → List Params × (List DataResult ⊕ DataResult)
  | [] => ([], Sum.inl [])
  | t :: ts =>
    let step := d t
    match step.2 with
    | DataResult.raise => (step.1, Sum.inr DataResult.raise)
    | DataResult.diverges => (step.1, Sum.inr DataResult.diverges)
    | x =>
      match dataMap d ts with
      | (rs, Sum.inl xs) => (step.1 ++ rs, Sum.inl (x :: xs))
      | (rs, bad) => (step.1 ++ rs, bad)

/-- Source lines 392-434, the `data` dispatch, with an explicit recursion
budget (Python raises `RecursionError` at its recursion limit; running out of
fuel is `diverges`).  A multi-element symbol list maps `data` over the
uppercased symbols; otherwise the symbol is uppercased when it is a string
(the `AttributeError` of `.upper()` on other values is swallowed, line 405),
the function name is uppercased and resolved, and on a `KeyError` the
arguments are swapped and `data` retried — the retry's value is discarded and
execution falls through to build a request from the swapped arguments, exactly
as the source does (the `return None` at line 415 is commented out).  Each
issued request is the built parameter map with the API key attached
(`_av_api_call`, line 183). -/
def dataGo (cat : Catalog) (cfg : ClientConfig) :
    Nat → String → SymArg → Kwargs → List Params × DataResult
  | 0, _, _, _ => ([], DataResult.diverges)
  | fuel + 1, function, symbol, kwargs =>
    let single : SymArg → List Params × DataResult := fun symArg =>
      let symbol' := match symArg with
        | SymArg.strS s => SymArg.strS (upstr s)
        | x => x
      let function' := upstr function
      match resolveFunction cat function' with
      | some f =>
        (match buildParams cat cfg f symbol' kwargs with
         | some ps =>
           let sent := dinsert ps "apikey" (PVal.str cfg.api_key)
           ([sent], DataResult.frame sent)
         | none => ([], DataResult.raise))
      | none =>
        match symbol' with
        | SymArg.strS s =>
          let inner := dataGo cat cfg fuel s (SymArg.strS function') kwargs
          (match inner.2 with
           | DataResult.raise => (inner.1, DataResult.raise)
           | DataResult.diverges => (inner.1, DataResult.diverges)
           | _ =>
             match buildParams cat cfg s (SymArg.strS function') kwargs with
             | some ps =>
               let sent := dinsert ps "apikey" (PVal.str cfg.api_key)
               (inner.1 ++ [sent], DataResult.frame sent)
             | none => (inner.1, DataResult.raise))
        | _ => ([], DataResult.raise)
    match symbol with
    | SymArg.listS l =>
      if 1 < l.length then
        match dataMap (fun t => dataGo cat cfg fuel function (SymArg.strS t) kwargs)
            (l.map upstr) with
        | (rs, Sum.inl xs) => (rs, DataResult.listRes xs)
        | (rs, Sum.inr r) => (rs, r)
      else single (SymArg.listS l)
    | s => single s

/-- JSON values as this client sees them: strings and objects (insertion
ordered, as `json.load` preserves payload order). -/
inductive JVal where
  | str (s : String)
  | obj (entries : List (String × JVal))

/-- Normalized table: a named row index and ordered rows of
timestamp/field-map pairs (column union/NaN alignment pandas performs across
rows never changes the row index and is not needed by any claim). -/
structure DFrame where
  indexName : String
  rows : List (String × List (String × ℚ))
deriving DecidableEq

/-- Result of `_to_dataframe`: a modelled table for the generic time-series
branch, or an opaque marker for the three pandas-internal reshapes
(`CURRENCY_EXCHANGE_RATE`, `SECTOR`, `BATCH_STOCK_QUOTES`) no claim depends
on. -/
inductive NormResult where
  | table (df : DFrame)
  | special (branch : String)
deriving DecidableEq

/-- Regex `\d+(|\w). ` matched at the head of the character list (the empty
alternative is tried first, as the regex engine does); backtracking into a
shorter digit run is not needed for the API's column labels. -/
def ordinalMatch (cs : List Char) : Option (List Char) :=
  let ds := cs.takeWhile Char.isDigit
  if ds.isEmpty then none
  else
    match cs.drop ds.length with
    | _ :: ' ' :: r => some r
    | w :: _ :: ' ' :: r => if w.isAlphanum then some r else none
    | _ => none

/-- Remove every match of the ordinal-label pattern, scanning left to right. -/
def stripOrdinalAux : Nat → List Char → List Char
  | 0, cs => cs
  | _ + 1, [] => []
  | fuel + 1, c :: cs =>
    match ordinalMatch (c :: cs) with
    | some rest => stripOrdinalAux fuel rest
    | none => c :: stripOrdinalAux fuel cs

/-- Source lines 311-314: the time-series/indicator column renaming chain. -/
def simplifyName (s : String) : String :=
  let cs := stripOrdinalAux s.data.length s.data
  let cs := replaceAll " amount".data [] cs
  let cs := replaceAll "adjusted".data "adj".data cs
  let cs := replaceAll " ".data "_".data cs
  ⟨cs⟩

/-- Column Simplifier for the time-series family: renames the field labels of
every row and leaves the row index untouched (source lines 310-317). -/
def simplifyTS (df : DFrame) : DFrame :=
  { df with rows := df.rows.map (fun r => (r.1, r.2.map (fun f => (simplifyName f.1, f.2)))) }

/-- Pandas `dtype=float` coercion of one timestamp's field object (`none` =
the conversion raises on a non-numeric cell). -/
def coerceFields : JVal → Option (List (String × ℚ))
  | JVal.obj fs => mapOption (fun f =>
      match f.2 with
      | JVal.str s => (parseFloat s).map (fun q => (f.1, q))
      | _ => none) fs
  | JVal.str _ => none

/-- Source lines 257-294, `_to_dataframe`: select the last non-`Meta Data`
top-level key (`.pop() or None`; an empty selection raises), dispatch on the
function name, and for the generic time-series branch build rows from the
payload entries, reverse them (`df.iloc[::-1]`), and apply the Column
Simplifier when `clean` is set.  Export is a filesystem side effect whose path
is modelled separately by `savePath`. -/
def toDataframe (clean : Bool) (function : String) (response : List (String × JVal)) :
    Option NormResult := do
  let ks := (response.map Prod.fst).filter (fun x => ! pyStartsWith x "Meta Data")
  let key ← ks.getLast?
  let key ← if key = "" then none else some key
  if function = "CURRENCY_EXCHANGE_RATE" then
    pure (NormResult.special "CURRENCY_EXCHANGE_RATE")
  else if function = "SECTOR" then
    pure (NormResult.special "SECTOR")
  else if function = "BATCH_STOCK_QUOTES" then
    pure (NormResult.special "BATCH_STOCK_QUOTES")
  else do
    let payload ← dlookup key response
    let entries ←
      match payload with
      | JVal.obj es => some es
      | _ => none
    let rows ← mapOption (fun e => (coerceFields e.2).map (fun fs => (e.1, fs))) entries
    let df : DFrame := { indexName := "date", rows := rows.reverse }
    pure (NormResult.table (if clean then simplifyTS df else df))

/-- The transport's view of one HTTP exchange: the status code, the parsed
JSON body when `.json()` succeeds, and the raw text body. -/
structure HttpResponse where
  status_code : Int
  jsonBody : Option (List (String × JVal))
  textBody : String

/-- Value `_av_api_call` returns to its caller. -/
inductive AVResult where
  | norm (r : NormResult)
  | raw (text : String)

/-- Source lines 177-207, `_av_api_call`: attach the API key, issue the
request (its response is the `resp` argument), log-and-continue on non-200,
extract the body (`.json()` for the json datatype — a parse failure raises
before anything is recorded), append the parameter map to the call history,
and for json convert to a table (a shape error raises after the append).
Returns the updated history and `none` for an uncaught exception. -/
def avApiCall (cfg : ClientConfig) (history : List Params) (parameters : Params)
    (resp : HttpResponse) : List Params × Option AVResult :=
  let ps := dinsert parameters "apikey" (PVal.str cfg.api_key)
  if cfg.datatype = "json" then
    match resp.jsonBody with
    | none => (history, none)
    | some body =>
      let history := history ++ [ps]
      match dlookup "function" ps with
      | some (PVal.str f) =>
        (match toDataframe cfg.clean f body with
         | some r => (history, some (AVResult.norm r))
         | none => (history, none))
      | _ => (history, none)
  else
    (history ++ [ps], some (AVResult.raw resp.textBody))

/-- Python `str(·)` on the parameter values that reach the export filename. -/
def pvalText : PVal → String
  | PVal.str s => s
  | PVal.int n => toString n
  | PVal.rat q => toString q
  | PVal.listStr _ => "[list]"
  | PVal.noneV => "None"

/-- First character uppercased, `parameters['series_type'][0].upper()`
(`none` = the `IndexError`/`TypeError` a non-string or empty value raises). -/
def seriesTypeInitial : PVal → Option String
  | PVal.str s =>
    match s.data with
    | c :: _ => some ⟨[Char.toUpper c]⟩
    | [] => none
  | _ => none

/-- Source lines 210-240, `_save_df`: the output path computed from the
function name and the recorded parameters of the last call, before the
format-specific writer runs.  `none` models the `KeyError` a missing
parameter raises. -/
def savePath (cat : Catalog) (cfg : ClientConfig) (function : String) (parameters : Params) :
    Option String := do
  let short := functionAlias cat function
  let base ←
    if function = "CURRENCY_EXCHANGE_RATE" then do
      let f ← dlookup "from_currency" parameters
      let t ← dlookup "to_currency" parameters
      pure (cfg.export_path ++ "/" ++ pvalText f ++ pvalText t)
    else if function = "SECTOR" then
      pure (cfg.export_path ++ "/sectors")
    else if function = "BATCH_STOCK_QUOTES" then
      pure (cfg.export_path ++ "/batch")
    else if function = "TIME_SERIES_INTRADAY" then do
      let s ← dlookup "symbol" parameters
      let i ← dlookup "interval" parameters
      pure (cfg.export_path ++ "/" ++ pvalText s ++ "_" ++ pvalText i)
    else if pyStartsWith short "C" ∧ short.length = 2 then do
      let s ← dlookup "symbol" parameters
      let m ← dlookup "market" parameters
      pure (cfg.export_path ++ "/" ++ pvalText s ++ pvalText m)
    else if function ∈ apiIndicator cat then do
      let s ← dlookup "symbol" parameters
      let p0 := cfg.export_path ++ "/" ++ pvalText s ++ "_" ++ short
      let p1 :=
        match dlookup "interval" parameters with
        | some i => p0 ++ "_" ++ pvalText i
        | none => p0
      let p2 ←
        match dlookup "series_type" parameters with
        | some st => (seriesTypeInitial st).map (fun c => p1 ++ "_" ++ c)
        | none => some p1
      let p3 :=
        match dlookup "time_period" parameters with
        | some t => p2 ++ "_" ++ pvalText t
        | none => p2
      pure p3
    else do
      let s ← dlookup "symbol" parameters
      pure (cfg.export_path ++ "/" ++ pvalText s ++ "_" ++ short)
  pure (base ++ "." ++ cfg.output)

/-- The `interval` argument of `intraday`: Python accepts a string or an
integer here (default `5`). -/
inductive IntervalArg where
  | str (s : String)
  | int (n : Int)
deriving DecidableEq

/-- Source lines 370-389, `intraday`: the parameter map sent to the transport,
or `none` when the interval is rejected and the method returns `None` without
contacting the remote API. -/
def intraday (cat : Catalog) (cfg : ClientConfig) (symbol : String) (interval : IntervalArg) :
    Option Params :=
  let base : Params :=
    [ ("function", PVal.str "TIME_SERIES_INTRADAY")
    , ("symbol", PVal.str (upstr symbol))
    , ("datatype", PVal.str cfg.datatype)
    , ("outputsize", PVal.str cfg.output_size) ]
  match interval with
  | IntervalArg.str s =>
    if s ∈ cat.series_interval then some (dinsert base "interval" (PVal.str s)) else none
  | IntervalArg.int n =>
    if n ∈ intradayMinutes cat then
      some (dinsert base "interval" (PVal.str (toString n ++ "min")))
    else none

/-- Source lines 355-367, `batch`: the parameter map for a batch quote call —
the symbols are uppercased, truncated to the first 100, and comma-joined. -/
def batchParams (symbols : List String) : Params :=
  [ ("function", PVal.str "BATCH_STOCK_QUOTES")
  , ("symbols", PVal.str (joinWith "," ((symbols.map upstr).take 100))) ]

/-- What `last` evaluates to: a single history record (`history[-n]`) or the
empty list of the `else` branch. -/
inductive LastResult where
  | record (ps : Params)
  | emptyList
deriving DecidableEq

/-- Source lines 566-569, `last`: `history[-n] if n > 0 else []`; `none`
models the `IndexError` when `n` exceeds the history length. -/
def lastN (history : List Params) (n : Int) : Option LastResult :=
  if 0 < n then
    if n ≤ (history.length : Int) then
      (history.get? (history.length - n.toNat)).map LastResult.record
    else none
  else some LastResult.emptyList

/-- A configuration instance used by the concrete evaluations below. -/
def stdConfig : ClientConfig :=
  { api_key := "demo", datatype := "json", output_size := "compact",
    output := "csv", export_path := "av_data", clean := false }

/-! Helper lemmas about the dictionary model. -/

theorem dlookup_mem {α : Type} {k : String} {v : α} :
    ∀ {l : List (String × α)}, dlookup k l = some v → (k, v) ∈ l := by
  intro l
  induction l with
  | nil => intro h; simp [dlookup] at h
  | cons p rest ih =>
    obtain ⟨k1, v1⟩ := p
    intro h
    by_cases hk : k1 = k
    · subst hk
      simp [dlookup] at h
      subst h
      exact List.mem_cons_self _ _
    · simp [dlookup, hk] at h
      exact List.mem_cons_of_mem _ (ih h)

theorem dlookup_eq_none_of_not_mem {α : Type} {k : String} :
    ∀ {l : List (String × α)}, k ∉ l.map Prod.fst → dlookup k l = none := by
  intro l
  induction l with
  | nil => intro _; rfl
  | cons p rest ih =>
    intro h
    simp only [List.map_cons, List.mem_cons] at h
    push_neg at h
    have hp : p.1 ≠ k := fun hh => h.1 hh.symm
    simp [dlookup, hp, ih h.2]

theorem dlookup_of_mem_nodup {α : Type} {k : String} {v : α} :
    ∀ {l : List (String × α)}, (l.map Prod.fst).Nodup → (k, v) ∈ l → dlookup k l = some v := by
  intro l
  induction l with
  | nil => intro _ h; simp at h
  | cons p rest ih =>
    intro hnd hm
    simp only [List.map_cons, List.nodup_cons] at hnd
    rcases List.mem_cons.1 hm with h | h
    · subst h
      simp [dlookup]
    · have hk : p.1 ≠ k := by
        intro hkk
        exact hnd.1 (hkk ▸ List.mem_map_of_mem Prod.fst h)
      simp [dlookup, hk, ih hnd.2 h]

theorem dlookup_append_of_ne {α : Type} {k : String} :
    ∀ {l₁ l₂ : List (String × α)}, (∀ p ∈ l₁, p.1 ≠ k) →
      dlookup k (l₁ ++ l₂) = dlookup k l₂ := by
  intro l₁
  induction l₁ with
  | nil => intro l₂ _; rfl
  | cons p rest ih =>
    intro l₂ h
    have hp : p.1 ≠ k := h p (List.mem_cons_self p rest)
    simp only [List.cons_append, dlookup, hp, if_false]
    exact ih (fun q hq => h q (List.mem_cons_of_mem p hq))

theorem foldl_dinsert_of_nodup {α : Type} :
    ∀ (l acc : List (String × α)), (acc.map Prod.fst ++ l.map Prod.fst).Nodup →
      l.foldl (fun d kv => dinsert d kv.1 kv.2) acc = acc ++ l := by
  intro l
  induction l with
  | nil => intro acc _; simp
  | cons p rest ih =>
    intro acc hnd
    have hk : p.1 ∉ acc.map Prod.fst := by
      have := (List.nodup_append.1 hnd).2.2
      intro hmem
      exact this hmem (by simp)
    have hins : dinsert acc p.1 p.2 = acc ++ [p] := by
      simp [dinsert, dlookup_eq_none_of_not_mem hk]
    have hnd' : ((acc ++ [p]).map Prod.fst ++ rest.map Prod.fst).Nodup := by
      simp only [List.map_append, List.map_cons, List.map_nil] at hnd ⊢
      simpa [List.append_assoc] using hnd
    calc (p :: rest).foldl (fun d kv => dinsert d kv.1 kv.2) acc
        = rest.foldl (fun d kv => dinsert d kv.1 kv.2) (acc ++ [p]) := by
          simp [List.foldl_cons, hins]
      _ = (acc ++ [p]) ++ rest := ih (acc ++ [p]) hnd'
      _ = acc ++ (p :: rest) := by simp

theorem pyDict_eq_of_nodup {α : Type} (l : List (String × α)) (h : (l.map Prod.fst).Nodup) :
    pyDict l = l := by
  have := foldl_dinsert_of_nodup l [] (by simpa using h)
  simpa [pyDict] using this

/-- C9: for every input list of symbols to the batch operation, the `symbols`
parameter sent to the remote API is the comma-join of at most the first 100
symbols, each upper-cased; symbols beyond the 100th are silently dropped. -/
theorem claim9_batch_symbols (symbols : List String) :
    dlookup "symbols" (batchParams symbols)
      = some (PVal.str (joinWith "," ((symbols.take 100).map upstr))) := by
  simp [batchParams, dlookup, List.map_take]

/-- C10: for every `n > 0` with at least `n` records in the call history,
`last n` returns the single record that is `n`-th from the end of the history
(not a list of the last `n` records); for every `n ≤ 0` it returns an empty
list. -/
theorem claim10_last_record (history : List Params) (n : Int) :
    (0 < n → n ≤ (history.length : Int) →
      lastN history n = (history.reverse.get? (n.toNat - 1)).map LastResult.record)
    ∧ (n ≤ 0 → lastN history n = some LastResult.emptyList) := by
  constructor
  · intro h1 h2
    have hn1 : 1 ≤ n.toNat := by omega
    have hn2 : n.toNat ≤ history.length := by omega
    rw [lastN, if_pos h1, if_pos h2]
    rw [List.get?_reverse' (n.toNat - 1) (history.length - n.toNat) (by omega)]
  · intro h
    rw [lastN, if_neg (by omega)]

/-- C10 witness: `last 2` on a three-record history yields exactly the second
record from the end, and `last 0` yields the empty list. -/
theorem claim10_last_record_witness :
    lastN [[("k", PVal.int 1)], [("k", PVal.int 2)], [("k", PVal.int 3)]] 2
        = some (LastResult.record [("k", PVal.int 2)])
    ∧ lastN [[("k", PVal.int 1)]] 0 = some LastResult.emptyList := by
  constructor
  · have h := (claim10_last_record
      [[("k", PVal.int 1)], [("k", PVal.int 2)], [("k", PVal.int 3)]] 2).1
      (by decide) (by decide)
    exact h.trans (by decide)
  · exact (claim10_last_record [[("k", PVal.int 1)]] 0).2 (by decide)

/-- C2 counterexample: a call whose HTTP status is 500 but whose body parses
as JSON is still appended to the call history, so "recorded iff status 200"
fails on the code. -/
theorem claim2_history_counterexample :
    (500 : Int) ≠ 200
    ∧ (avApiCall stdConfig [] [("function", PVal.str "TIME_SERIES_DAILY")]
        { status_code := 500
        , jsonBody := some [("Time Series (Daily)",
            JVal.obj [("2024-01-02", JVal.obj [("4. close", JVal.str "2.0")])])]
        , textBody := "" }).1
      = [[("function", PVal.str "TIME_SERIES_DAILY"), ("apikey", PVal.str "demo")]] := by
  exact ⟨by decide, rfl⟩

/-- C2 amended: a parameter map is appended to the call history iff the
response body was successfully extracted — for the `json` datatype iff
`.json()` parsed, and always for the text datatype — regardless of the HTTP
status code; a later dataframe shape error does not remove the record. -/
theorem claim2_history_amended (cfg : ClientConfig) (history : List Params) (ps : Params)
    (resp : HttpResponse) :
    (avApiCall cfg history ps resp).1
      = if cfg.datatype = "json" ∧ resp.jsonBody.isNone then history
        else history ++ [dinsert ps "apikey" (PVal.str cfg.api_key)] := by
  by_cases hdt : cfg.datatype = "json"
  · cases hb : resp.jsonBody with
    | none => simp [avApiCall, hdt, hb]
    | some body =>
      simp only [avApiCall, hdt, hb, if_pos, Option.isNone_some]
      have : ¬ (cfg.datatype = "json" ∧ False) := by simp
      rw [if_neg (by simp)]
      split <;> (try split) <;> rfl
  · simp [avApiCall, hdt]

/-! Lemmas about the coercion steps of `_validate_parameters`. -/

theorem lkAbs_isSome {kw : Kwargs} (name : String)
    (hnum : ∀ p ∈ kw, (numQ p.2).isSome) : ∃ o, lkAbs kw name = some o := by
  cases h : dlookup name kw with
  | none => exact ⟨none, by simp [lkAbs, h]⟩
  | some v =>
    obtain ⟨q, hq⟩ := Option.isSome_iff_exists.1 (hnum (name, v) (dlookup_mem h))
    exact ⟨some |q|, by simp [lkAbs, h, hq]⟩

theorem lkAbsInt_isSome {kw : Kwargs} (name : String)
    (hnum : ∀ p ∈ kw, (numQ p.2).isSome) : ∃ o, lkAbsInt kw name = some o := by
  cases h : dlookup name kw with
  | none => exact ⟨none, by simp [lkAbsInt, h]⟩
  | some v =>
    obtain ⟨q, hq⟩ := Option.isSome_iff_exists.1 (hnum (name, v) (dlookup_mem h))
    exact ⟨some (ratTruncAbs q), by simp [lkAbsInt, h, hq]⟩

theorem vpIntOpt_skip (option name : String) {kw : Kwargs} (hne : option ≠ name)
    (hnum : ∀ p ∈ kw, (numQ p.2).isSome) (ps : Params) :
    vpIntOpt option name ps kw = some ps := by
  obtain ⟨o, ho⟩ := lkAbsInt_isSome name hnum
  cases o <;> simp [vpIntOpt, ho, hne]

theorem vpIntMatype_skip {matypes : List Int} (option name : String) {kw : Kwargs}
    (hne : option ≠ name) (hnum : ∀ p ∈ kw, (numQ p.2).isSome) (ps : Params) :
    vpIntMatype matypes option name ps kw = some ps := by
  obtain ⟨o, ho⟩ := lkAbsInt_isSome name hnum
  cases o <;> simp [vpIntMatype, ho, hne]

theorem vpRatOpt_skip (option name : String) {kw : Kwargs} (hne : option ≠ name)
    (hnum : ∀ p ∈ kw, (numQ p.2).isSome) (ps : Params) :
    vpRatOpt option name ps kw = some ps := by
  obtain ⟨o, ho⟩ := lkAbs_isSome name hnum
  cases o <;> simp [vpRatOpt, ho, hne]

theorem vpRatLimit_skip (option name : String) {kw : Kwargs} (hne : option ≠ name)
    (hnum : ∀ p ∈ kw, (numQ p.2).isSome) (ps : Params) :
    vpRatLimit option name ps kw = some ps := by
  obtain ⟨o, ho⟩ := lkAbs_isSome name hnum
  cases o <;> simp [vpRatLimit, ho, hne]

theorem vpRatLimit_hit {name : String} {kw : Kwargs} {q : ℚ}
    (hkw : dlookup name kw = some (PVal.rat q)) (ps : Params) :
    vpRatLimit name name ps kw
      = some (if 0 < |q| ∧ |q| < 1 then dinsert ps name (PVal.rat |q|) else ps) := by
  have hlk : lkAbs kw name = some (some |q|) := by simp [lkAbs, hkw, numQ]
  simp [vpRatLimit, hlk]

theorem vpBlock1_skip {matypes : List Int} {kw : Kwargs} (option : String)
    (hnum : ∀ p ∈ kw, (numQ p.2).isSome)
    (h1 : option ≠ "matype") (h2 : option ≠ "nbdevup") (h3 : option ≠ "nbdevdn")
    (h4 : option ≠ "timeperiod1") (h5 : option ≠ "timeperiod2") (h6 : option ≠ "timeperiod3")
    (ps : Params) :
    vpBlock1 matypes option ps kw = some ps := by
  simp only [vpBlock1, vpIntMatype_skip _ _ h1 hnum, Option.bind_eq_bind, Option.some_bind,
    vpRatOpt_skip _ _ h2 hnum, vpRatOpt_skip _ _ h3 hnum, vpIntOpt_skip _ _ h4 hnum,
    vpIntOpt_skip _ _ h5 hnum, vpIntOpt_skip _ _ h6 hnum]

theorem vpBlock3_skip {matypes : List Int} {kw : Kwargs} (option : String)
    (hnum : ∀ p ∈ kw, (numQ p.2).isSome)
    (h1 : option ≠ "signalperiod") (h2 : option ≠ "fastmatype") (h3 : option ≠ "slowmatype")
    (h4 : option ≠ "signalmatype") (h5 : option ≠ "fastkperiod") (h6 : option ≠ "fastdperiod")
    (ps : Params) :
    vpBlock3 matypes option ps kw = some ps := by
  simp only [vpBlock3, vpIntOpt_skip _ _ h1 hnum, Option.bind_eq_bind, Option.some_bind,
    vpIntMatype_skip _ _ h2 hnum, vpIntMatype_skip _ _ h3 hnum, vpIntMatype_skip _ _ h4 hnum,
    vpIntOpt_skip _ _ h5 hnum, vpIntOpt_skip _ _ h6 hnum]

theorem vpBlock4_skip {matypes : List Int} {kw : Kwargs} (option : String)
    (hnum : ∀ p ∈ kw, (numQ p.2).isSome)
    (h1 : option ≠ "fastdmatype") (h2 : option ≠ "slowkperiod") (h3 : option ≠ "slowdperiod")
    (h4 : option ≠ "slowkmatype") (h5 : option ≠ "slowdmatype")
    (ps : Params) :
    vpBlock4 matypes option ps kw = some ps := by
  simp only [vpBlock4, vpIntMatype_skip _ _ h1 hnum, Option.bind_eq_bind, Option.some_bind,
    vpIntOpt_skip _ _ h2 hnum, vpIntOpt_skip _ _ h3 hnum, vpIntMatype_skip _ _ h4 hnum,
    vpIntMatype_skip _ _ h5 hnum]

theorem vpBlock2_fastlimit {kw : Kwargs} {q : ℚ}
    (hnum : ∀ p ∈ kw, (numQ p.2).isSome)
    (hkw : dlookup "fastlimit" kw = some (PVal.rat q)) (ps : Params) :
    vpBlock2 "fastlimit" ps kw
      = some (if 0 < |q| ∧ |q| < 1 then dinsert ps "fastlimit" (PVal.rat |q|) else ps) := by
  simp only [vpBlock2, Option.bind_eq_bind, Option.some_bind,
    vpRatOpt_skip "fastlimit" "acceleration" (by decide) hnum,
    vpRatOpt_skip "fastlimit" "maximum" (by decide) hnum,
    vpRatLimit_hit hkw,
    vpRatLimit_skip "fastlimit" "slowlimit" (by decide) hnum,
    vpIntOpt_skip "fastlimit" "fastperiod" (by decide) hnum,
    vpIntOpt_skip "fastlimit" "slowperiod" (by decide) hnum]

theorem vpBlock2_slowlimit {kw : Kwargs} {q : ℚ}
    (hnum : ∀ p ∈ kw, (numQ p.2).isSome)
    (hkw : dlookup "slowlimit" kw = some (PVal.rat q)) (ps : Params) :
    vpBlock2 "slowlimit" ps kw
      = some (if 0 < |q| ∧ |q| < 1 then dinsert ps "slowlimit" (PVal.rat |q|) else ps) := by
  simp only [vpBlock2, Option.bind_eq_bind, Option.some_bind,
    vpRatOpt_skip "slowlimit" "acceleration" (by decide) hnum,
    vpRatOpt_skip "slowlimit" "maximum" (by decide) hnum,
    vpRatLimit_skip "slowlimit" "fastlimit" (by decide) hnum,
    vpRatLimit_hit hkw,
    vpIntOpt_skip "slowlimit" "fastperiod" (by decide) hnum,
    vpIntOpt_skip "slowlimit" "slowperiod" (by decide) hnum]

/-- C5: for the `fastlimit` (and `slowlimit`) optional parameter, the coerced
value (absolute value, as a real number) is inserted into the parameter map
iff it lies strictly between 0 and 1. -/
theorem claim5_fastlimit_range (matypes : List Int) (opt : String) (ps : Params) (kw : Kwargs)
    (q : ℚ) (hopt : opt = "fastlimit" ∨ opt = "slowlimit")
    (hnum : ∀ p ∈ kw, (numQ p.2).isSome)
    (hkw : dlookup opt kw = some (PVal.rat q)) :
    validateParameters matypes opt ps kw
      = some (if 0 < |q| ∧ |q| < 1 then dinsert ps opt (PVal.rat |q|) else ps) := by
  rcases hopt with h | h <;> subst h
  · simp only [validateParameters,
      vpBlock1_skip "fastlimit" hnum (by decide) (by decide) (by decide) (by decide) (by decide)
        (by decide),
      Option.bind_eq_bind, Option.some_bind, vpBlock2_fastlimit hnum hkw,
      vpBlock3_skip "fastlimit" hnum (by decide) (by decide) (by decide) (by decide) (by decide)
        (by decide),
      vpBlock4_skip "fastlimit" hnum (by decide) (by decide) (by decide) (by decide) (by decide)]
  · simp only [validateParameters,
      vpBlock1_skip "slowlimit" hnum (by decide) (by decide) (by decide) (by decide) (by decide)
        (by decide),
      Option.bind_eq_bind, Option.some_bind, vpBlock2_slowlimit hnum hkw,
      vpBlock3_skip "slowlimit" hnum (by decide) (by decide) (by decide) (by decide) (by decide)
        (by decide),
      vpBlock4_skip "slowlimit" hnum (by decide) (by decide) (by decide) (by decide) (by decide)]

/-- C5 witness: a `fastlimit` of `0.5` is inserted; a `fastlimit` of `1.5`
is rejected (the parameter map stays empty). -/
theorem claim5_fastlimit_range_witness :
    validateParameters [0, 1, 2, 3, 4, 5, 6, 7, 8] "fastlimit" []
        [("fastlimit", PVal.rat (1 / 2))]
      = some [("fastlimit", PVal.rat (1 / 2))]
    ∧ validateParameters [0, 1, 2, 3, 4, 5, 6, 7, 8] "fastlimit" []
        [("fastlimit", PVal.rat (3 / 2))]
      = some [] := by
  constructor
  · have h := claim5_fastlimit_range [0, 1, 2, 3, 4, 5, 6, 7, 8] "fastlimit" []
      [("fastlimit", PVal.rat (1 / 2))] (1 / 2) (Or.inl rfl)
      (by rintro p hp; simp only [List.mem_singleton] at hp; subst hp; rfl)
      (by simp [dlookup])
    rw [h, abs_of_pos (by norm_num : (0 : ℚ) < 1 / 2), if_pos ⟨by norm_num, by norm_num⟩]
    simp [dinsert, dlookup]
  · have h := claim5_fastlimit_range [0, 1, 2, 3, 4, 5, 6, 7, 8] "fastlimit" []
      [("fastlimit", PVal.rat (3 / 2))] (3 / 2) (Or.inl rfl)
      (by rintro p hp; simp only [List.mem_singleton] at hp; subst hp; rfl)
      (by simp [dlookup])
    rw [h, abs_of_pos (by norm_num : (0 : ℚ) < 3 / 2), if_neg (by norm_num)]

/-- C7: for every registered alias in the catalog (given the descriptor's
aliases and canonical names are duplicate-free, as the spec assumes),
resolving the alias yields its canonical function name, resolving that
canonical name back through `_function_alias` yields the original alias, and
no two distinct aliases resolve to the same canonical name. -/
theorem claim7_alias_bijection (cat : Catalog)
    (h1 : (cat.series.map FnEntry.aliasName).Nodup)
    (h2 : (cat.series.map FnEntry.function).Nodup) :
    (∀ e ∈ cat.series,
        dlookup e.aliasName (apiFunction cat) = some e.function
        ∧ functionAlias cat e.function = e.aliasName)
    ∧ (∀ a₁ a₂ f, dlookup a₁ (apiFunction cat) = some f →
        dlookup a₂ (apiFunction cat) = some f → a₁ = a₂) := by
  have hpairs : apiFunction cat = cat.series.map (fun e => (e.aliasName, e.function)) := by
    apply pyDict_eq_of_nodup
    rw [List.map_map]
    exact h1
  have hswap : apiFunctionInv cat
      = cat.series.map (fun e => (e.function, e.aliasName)) := by
    rw [apiFunctionInv, hpairs]
    rw [List.map_map]
    apply pyDict_eq_of_nodup
    rw [List.map_map]
    exact h2
  constructor
  · intro e he
    constructor
    · rw [hpairs]
      apply dlookup_of_mem_nodup
      · rw [List.map_map]; exact h1
      · exact List.mem_map_of_mem _ he
    · have hv : dlookup e.function (cat.series.map (fun e => (e.function, e.aliasName)))
          = some e.aliasName := by
        apply dlookup_of_mem_nodup
        · rw [List.map_map]; exact h2
        · exact List.mem_map_of_mem _ he
      rw [functionAlias, hswap, hv]
  · intro a₁ a₂ f hl₁ hl₂
    rw [hpairs] at hl₁ hl₂
    obtain ⟨e₁, he₁, hpe₁⟩ := List.mem_map.1 (dlookup_mem hl₁)
    obtain ⟨e₂, he₂, hpe₂⟩ := List.mem_map.1 (dlookup_mem hl₂)
    have hf : e₁.function = e₂.function := by
      have f₁ := congrArg Prod.snd hpe₁
      have f₂ := congrArg Prod.snd hpe₂
      simp at f₁ f₂
      rw [f₁, f₂]
    have : e₁ = e₂ := List.inj_on_of_nodup_map h2 he₁ he₂ hf
    have a₁eq := congrArg Prod.fst hpe₁
    have a₂eq := congrArg Prod.fst hpe₂
    simp at a₁eq a₂eq
    rw [← a₁eq, ← a₂eq, this]

/-- C7 witness: in the modelled catalog, alias `D` resolves to
`TIME_SERIES_DAILY` and the canonical name resolves back to `D`. -/
theorem claim7_alias_bijection_witness :
    dlookup "D" (apiFunction specCatalog) = some "TIME_SERIES_DAILY"
    ∧ functionAlias specCatalog "TIME_SERIES_DAILY" = "D" := by
  have h := (claim7_alias_bijection specCatalog (by decide) (by decide)).1
    ⟨"TIME_SERIES_DAILY", "D", some ["symbol"], none⟩ (by decide)
  exact ⟨h.1, h.2⟩

/-- C8: for an export of an indicator call whose recorded parameters contain
symbol `AAPL`, function/alias `RSI`, interval `5min`, series type `close` and
time period 14, the computed output path ends with `AAPL_RSI_5min_C_14`
immediately before the extension of the configured output format. -/
theorem claim8_export_path (exportPath output apiKey dt osz : String) (cl : Bool) :
    savePath specCatalog ⟨apiKey, dt, osz, output, exportPath, cl⟩ "RSI"
        [("function", PVal.str "RSI"), ("symbol", PVal.str "AAPL"),
         ("interval", PVal.str "5min"), ("series_type", PVal.str "close"),
         ("time_period", PVal.int 14), ("apikey", PVal.str "demo")]
      = some (exportPath ++ "/AAPL_RSI_5min_C_14." ++ output) := by
  simp only [savePath, dlookup, pvalText, seriesTypeInitial, apiIndicator, specCatalog,
    functionAlias, apiFunctionInv, apiFunction, pyDict, dinsert, pyStartsWith]
  simp [savePath, dlookup, pvalText, seriesTypeInitial, apiIndicator, specCatalog,
    functionAlias, apiFunctionInv, apiFunction, pyDict, dinsert, pyStartsWith]
  rw [show toString (14 : Int) = "14" from rfl]
  apply String.ext
  simp only [String.data_append, List.append_assoc]
  congr 1

/-! Lemmas for the generic time-series branch of the Response Normalizer. -/

theorem mapOption_fst :
    ∀ {entries : List (String × JVal)} {rows : List (String × List (String × ℚ))},
      mapOption (fun e => (coerceFields e.2).map (fun fs => (e.1, fs))) entries = some rows →
      rows.map Prod.fst = entries.map Prod.fst := by
  intro entries
  induction entries with
  | nil => intro rows h; simp [mapOption] at h; subst h; rfl
  | cons e es ih =>
    intro rows h
    simp only [mapOption] at h
    cases hfe : (coerceFields e.2).map (fun fs => (e.1, fs)) with
    | none => rw [hfe] at h; simp at h
    | some b =>
      cases hrest : mapOption (fun e => (coerceFields e.2).map (fun fs => (e.1, fs))) es with
      | none => rw [hfe, hrest] at h; simp at h
      | some bs =>
        rw [hfe, hrest] at h
        simp at h
        subst h
        obtain ⟨fs, _, hb⟩ := Option.map_eq_some'.1 hfe
        simp [← hb, ih hrest]

theorem simplifyTS_fst (df : DFrame) :
    (simplifyTS df).rows.map Prod.fst = df.rows.map Prod.fst := by
  simp only [simplifyTS, List.map_map]
  rfl

/-- C3: for every generic time-series JSON response whose data key maps N
timestamps to field mappings, normalization produces a table with exactly N
rows whose row order is the exact reversal of the payload's order, so a
newest-first payload yields strictly ascending (oldest-first) timestamp
order. -/
theorem claim3_timeseries_reversal (clean : Bool) (function : String)
    (meta entries : List (String × JVal)) (key : String) (df : DFrame)
    (hfn1 : function ≠ "CURRENCY_EXCHANGE_RATE") (hfn2 : function ≠ "SECTOR")
    (hfn3 : function ≠ "BATCH_STOCK_QUOTES")
    (hmeta : ∀ p ∈ meta, pyStartsWith p.1 "Meta Data" = true)
    (hkey : pyStartsWith key "Meta Data" = false) (hkey2 : key ≠ "")
    (hres : toDataframe clean function (meta ++ [(key, JVal.obj entries)])
        = some (NormResult.table df)) :
    df.rows.length = entries.length
    ∧ df.rows.map Prod.fst = (entries.map Prod.fst).reverse
    ∧ ((entries.map Prod.fst).Pairwise (fun a b => pyLt b a = true) →
        (df.rows.map Prod.fst).Pairwise (fun a b => pyLt a b = true)) := by
  have hmetakeys : ∀ p ∈ meta, p.1 ≠ key := by
    intro p hp hcontra
    have h1 := hmeta p hp
    rw [hcontra, hkey] at h1
    exact Bool.false_ne_true h1
  have hfilter : ((meta ++ [(key, JVal.obj entries)]).map Prod.fst).filter
      (fun x => ! pyStartsWith x "Meta Data") = [key] := by
    rw [List.map_append, List.filter_append]
    have hnil : (meta.map Prod.fst).filter (fun x => ! pyStartsWith x "Meta Data") = [] := by
      apply List.filter_eq_nil_iff.2
      intro a ha
      obtain ⟨p, hp, rfl⟩ := List.mem_map.1 ha
      simp [hmeta p hp]
    rw [hnil]
    simp [List.filter, hkey]
  have hlook : dlookup key (meta ++ [(key, JVal.obj entries)]) = some (JVal.obj entries) := by
    rw [dlookup_append_of_ne hmetakeys]
    simp [dlookup]
  simp only [toDataframe, hfilter, List.getLast?_singleton, Option.bind_eq_bind,
    Option.some_bind, hkey2, if_neg, hfn1, hfn2, hfn3, hlook] at hres
  cases hmo : mapOption (fun e => (coerceFields e.2).map (fun fs => (e.1, fs))) entries with
  | none =>
    rw [hmo] at hres
    simp at hres
  | some rows =>
    rw [hmo] at hres
    simp at hres
    have hfst : df.rows.map Prod.fst = (entries.map Prod.fst).reverse := by
      have : df.rows.map Prod.fst = rows.reverse.map Prod.fst := by
        cases hc : clean with
        | false => rw [← hres]; simp [hc]
        | true => rw [← hres]; simp [hc, simplifyTS_fst]
      rw [this, List.map_reverse, mapOption_fst hmo]
    refine ⟨?_, hfst, ?_⟩
    · have := congrArg List.length hfst
      simpa using this
    · intro hdesc
      rw [hfst]
      rw [List.pairwise_reverse]
      exact hdesc

/-- C3 witness: a two-entry newest-first payload normalizes to a two-row table
in strictly ascending timestamp order. -/
theorem claim3_timeseries_reversal_witness :
    (DFrame.mk "date"
        [("2024-01-02", [("4. close", 2)]), ("2024-01-03", [("4. close", 3)])]).rows.length = 2
    ∧ ((DFrame.mk "date"
        [("2024-01-02", [("4. close", 2)]),
         ("2024-01-03", [("4. close", 3)])]).rows.map Prod.fst).Pairwise
        (fun a b => pyLt a b = true) := by
  have h := claim3_timeseries_reversal false "TIME_SERIES_DAILY"
    [("Meta Data", JVal.obj [])]
    [("2024-01-03", JVal.obj [("4. close", JVal.str "3.0")]),
     ("2024-01-02", JVal.obj [("4. close", JVal.str "2.0")])]
    "Time Series (Daily)"
    (DFrame.mk "date" [("2024-01-02", [("4. close", 2)]), ("2024-01-03", [("4. close", 3)])])
    (by decide) (by decide) (by decide) (by decide) (by decide) (by decide) (by decide)
  exact ⟨h.1.trans (by decide), h.2.2 (by decide)⟩

/-! Lemmas for the multi-symbol dispatch of `data`. -/

theorem dataMap_ok (d : String → List Params × DataResult) :
    ∀ ts : List String, (∀ t ∈ ts, isAbort (d t).2 = false) →
      dataMap d ts = ((ts.map (fun t => (d t).1)).join, Sum.inl (ts.map (fun t => (d t).2))) := by
  intro ts
  induction ts with
  | nil => intro _; simp [dataMap]
  | cons t ts ih =>
    intro h
    have ht : isAbort (d t).2 = false := h t (List.mem_cons_self t ts)
    have hts : ∀ u ∈ ts, isAbort (d u).2 = false :=
      fun u hu => h u (List.mem_cons_of_mem _ hu)
    simp only [dataMap]
    cases hx : (d t).2 with
    | raise => rw [hx] at ht; simp [isAbort] at ht
    | diverges => rw [hx] at ht; simp [isAbort] at ht
    | frame ps =>
      simp only [hx, ih hts]
      simp
      exact hx.symm
    | listRes rs =>
      simp only [hx, ih hts]
      simp
      exact hx.symm

/-- C4: for the `data` operation given a list of more than one symbol, the
result is one element per input symbol, in order, where element `i` is the
result of calling the operation on the `i`-th symbol upper-cased; each
element's value depends only on its own symbol. -/
theorem claim4_multi_symbol_map (cat : Catalog) (cfg : ClientConfig) (fuel : Nat)
    (function : String) (l : List String) (kwargs : Kwargs)
    (hlen : 1 < l.length)
    (hok : ∀ t ∈ l,
      isAbort (dataGo cat cfg fuel function (SymArg.strS (upstr t)) kwargs).2 = false) :
    dataGo cat cfg (fuel + 1) function (SymArg.listS l) kwargs
      = ((l.map (fun t => (dataGo cat cfg fuel function (SymArg.strS (upstr t)) kwargs).1)).join,
         DataResult.listRes
           (l.map (fun t => (dataGo cat cfg fuel function (SymArg.strS (upstr t)) kwargs).2))) := by
  have hok' : ∀ t ∈ l.map upstr,
      isAbort (dataGo cat cfg fuel function (SymArg.strS t) kwargs).2 = false := by
    intro t ht
    obtain ⟨u, hu, rfl⟩ := List.mem_map.1 ht
    exact hok u hu
  simp only [dataGo]
  rw [if_pos hlen, dataMap_ok _ _ hok']
  simp only [List.map_map]
  rfl

/-- C4 witness: dispatching `data` for `D` over `["aapl", "msft"]` issues the
two per-symbol requests in order and returns the two per-symbol results in
the same order. -/
theorem claim4_multi_symbol_map_witness :
    dataGo specCatalog stdConfig 2 "D" (SymArg.listS ["aapl", "msft"]) []
      = ([[("function", PVal.str "TIME_SERIES_DAILY"), ("symbol", PVal.str "AAPL"),
           ("datatype", PVal.str "json"), ("outputsize", PVal.str "compact"),
           ("apikey", PVal.str "demo")],
          [("function", PVal.str "TIME_SERIES_DAILY"), ("symbol", PVal.str "MSFT"),
           ("datatype", PVal.str "json"), ("outputsize", PVal.str "compact"),
           ("apikey", PVal.str "demo")]],
         DataResult.listRes
           [DataResult.frame [("function", PVal.str "TIME_SERIES_DAILY"),
              ("symbol", PVal.str "AAPL"), ("datatype", PVal.str "json"),
              ("outputsize", PVal.str "compact"), ("apikey", PVal.str "demo")],
            DataResult.frame [("function", PVal.str "TIME_SERIES_DAILY"),
              ("symbol", PVal.str "MSFT"), ("datatype", PVal.str "json"),
              ("outputsize", PVal.str "compact"), ("apikey", PVal.str "demo")]]) := by
  have h := claim4_multi_symbol_map specCatalog stdConfig 1 "D" ["aapl", "msft"] []
    (by decide) (by decide)
  exact h.trans rfl

/-- C1 evaluation of the code at the failing inputs: with both argument
orders unresolvable (`FOO`/`BAR`), `data` keeps swapping and recursing until
the recursion limit — it never warns-and-returns after a single retry, and at
every recursion budget the outcome is `diverges` (Python: `RecursionError`);
with swapped arguments `AAPL`/`D` the retry succeeds but its value is
discarded: two requests are issued and the second carries the unresolved
alias `D` as its `function`, which is not a canonical name of the catalog. -/
theorem claim1_swap_retry_code_eval :
    dataGo specCatalog stdConfig 6 "FOO" (SymArg.strS "BAR") [] = ([], DataResult.diverges)
    ∧ (dataGo specCatalog stdConfig 6 "AAPL" (SymArg.strS "D") []).1.length = 2
    ∧ ((dataGo specCatalog stdConfig 6 "AAPL" (SymArg.strS "D") []).1.getLast?.bind
        (dlookup "function")) = some (PVal.str "D")
    ∧ "D" ∉ (specCatalog.series ++ specCatalog.indicator).map FnEntry.function := by
  refine ⟨rfl, rfl, rfl, by decide⟩

/-! Inversion lemmas for decimal rendering, used to settle the intraday
interval claim. -/

theorem toDigitsCore_len_pos (fuel n : Nat) (h : 0 < fuel) :
    0 < (Nat.toDigitsCore 10 fuel n []).length := by
  cases fuel with
  | zero => omega
  | succ f =>
    simp only [Nat.toDigitsCore]
    split
    · simp
    · rw [Nat.toDigitsCore_lens_eq]
      omega

theorem nat_repr_one_digit (m : Nat) (c : Char) (h : Nat.repr m = String.mk [c]) :
    m < 10 ∧ Nat.digitChar m = c := by
  have hl : Nat.toDigitsCore 10 (m + 1) m [] = [c] := by
    have hd := congrArg String.data h
    simpa [Nat.repr, Nat.toDigits, List.asString] using hd
  by_cases hz : m / 10 = 0
  · have hm : m < 10 := (Nat.div_eq_zero_iff (by norm_num)).1 hz
    refine ⟨hm, ?_⟩
    have hone : Nat.toDigitsCore 10 (m + 1) m [] = [Nat.digitChar (m % 10)] := by
      simp only [Nat.toDigitsCore]
      simp [hz]
    rw [hone] at hl
    have := List.head_eq_of_cons_eq hl
    rwa [Nat.mod_eq_of_lt hm] at this
  · exfalso
    have hm10 : 10 ≤ m := by
      by_contra hc
      push_neg at hc
      exact hz ((Nat.div_eq_zero_iff (by norm_num)).2 hc)
    have h2 : 2 ≤ (Nat.toDigitsCore 10 (m + 1) m []).length := by
      simp only [Nat.toDigitsCore]
      rw [if_neg hz, Nat.toDigitsCore_lens_eq]
      have := toDigitsCore_len_pos m (m / 10) (by omega)
      omega
    rw [hl] at h2
    simp at h2

theorem nat_repr_two_digit (m : Nat) (c₁ c₂ : Char) (h : Nat.repr m = String.mk [c₁, c₂]) :
    10 ≤ m ∧ m < 100 ∧ Nat.digitChar (m / 10) = c₁ ∧ Nat.digitChar (m % 10) = c₂ := by
  have hl : Nat.toDigitsCore 10 (m + 1) m [] = [c₁, c₂] := by
    have hd := congrArg String.data h
    simpa [Nat.repr, Nat.toDigits, List.asString] using hd
  by_cases hz : m / 10 = 0
  · exfalso
    have hone : Nat.toDigitsCore 10 (m + 1) m [] = [Nat.digitChar (m % 10)] := by
      simp only [Nat.toDigitsCore]
      simp [hz]
    rw [hone] at hl
    simp at hl
  · have hm10 : 10 ≤ m := by
      by_contra hc
      push_neg at hc
      exact hz ((Nat.div_eq_zero_iff (by norm_num)).2 hc)
    obtain ⟨f, rfl⟩ : ∃ f, m = f + 1 := ⟨m - 1, by omega⟩
    have hstep : Nat.toDigitsCore 10 (f + 1 + 1) (f + 1) []
        = Nat.toDigitsCore 10 (f + 1) ((f + 1) / 10) [Nat.digitChar ((f + 1) % 10)] := by
      simp only [Nat.toDigitsCore]
      simp [hz]
    rw [hstep] at hl
    by_cases hz2 : (f + 1) / 10 / 10 = 0
    · have hlt : f + 1 < 100 := by
        have hdd : (f + 1) / 100 = 0 := by
          rw [show (100 : Nat) = 10 * 10 from rfl, ← Nat.div_div_eq_div_mul]
          exact hz2
        have := (Nat.div_eq_zero_iff (show (0 : Nat) < 100 by norm_num)).1 hdd
        omega
      have hstep2 : Nat.toDigitsCore 10 (f + 1) ((f + 1) / 10) [Nat.digitChar ((f + 1) % 10)]
          = [Nat.digitChar ((f + 1) / 10 % 10), Nat.digitChar ((f + 1) % 10)] := by
        cases hf : f + 1 with
        | zero => omega
        | succ g =>
          simp only [Nat.toDigitsCore]
          simp [hz2, ← hf]
      rw [hstep2] at hl
      have hdiv : (f + 1) / 10 % 10 = (f + 1) / 10 := by
        apply Nat.mod_eq_of_lt
        have : (f + 1) / 10 < 10 := (Nat.div_eq_zero_iff (by norm_num)).1 hz2
        exact this
      have hc1 := List.head_eq_of_cons_eq hl
      have hrest := List.tail_eq_of_cons_eq hl
      have hc2 := List.head_eq_of_cons_eq hrest
      rw [hdiv] at hc1
      exact ⟨hm10, hlt, hc1, hc2⟩
    · exfalso
      have h3 : 3 ≤ (Nat.toDigitsCore 10 (f + 1) ((f + 1) / 10)
          [Nat.digitChar ((f + 1) % 10)]).length := by
        cases hf : f + 1 with
        | zero => omega
        | succ g =>
          simp only [Nat.toDigitsCore]
          rw [if_neg (hf ▸ hz2), Nat.toDigitsCore_lens_eq, Nat.toDigitsCore_lens_eq]
          have hg : 0 < g := by
            have : 100 ≤ f + 1 := by
              by_contra hc
              push_neg at hc
              have : (f + 1) / 10 / 10 = 0 := by
                rw [Nat.div_div_eq_div_mul]
                exact (Nat.div_eq_zero_iff (by norm_num)).2 hc
              exact hz2 this
            omega
          have hlen := toDigitsCore_len_pos g ((g + 1) / 10 / 10) hg
          omega
      rw [hl] at h3
      simp at h3

theorem digitChar_inj_lt (k d : Nat) (hk : k < 10) (hd : d < 10)
    (h : Nat.digitChar k = Nat.digitChar d) : k = d := by
  interval_cases k <;> interval_cases d <;> revert h <;> decide

theorem int_toString_nat (n : Int) (m : Nat) (hm : m < 100)
    (h : toString n = Nat.repr m) : n = (m : Int) := by
  cases n with
  | ofNat k =>
    have hk : Nat.repr k = Nat.repr m := h
    by_cases hsm : m < 10
    · have h1 : Nat.repr m = String.mk [Nat.digitChar m] := by
        have := nat_repr_one_digit m (Nat.digitChar m)
        by_cases true_check : Nat.repr m = String.mk [Nat.digitChar m]
        · exact true_check
        · exfalso
          have hone : Nat.toDigitsCore 10 (m + 1) m [] = [Nat.digitChar (m % 10)] := by
            simp only [Nat.toDigitsCore]
            simp [(Nat.div_eq_zero_iff (show (0:Nat) < 10 by norm_num)).2 hsm]
          apply true_check
          apply String.ext
          simp [Nat.repr, Nat.toDigits, List.asString, hone, Nat.mod_eq_of_lt hsm]
      rw [h1] at hk
      obtain ⟨hk10, hdig⟩ := nat_repr_one_digit k (Nat.digitChar m) hk
      have := digitChar_inj_lt k m hk10 hsm hdig
      simp [this]
    · have h2 : Nat.repr m = String.mk [Nat.digitChar (m / 10), Nat.digitChar (m % 10)] := by
        have hz : ¬ m / 10 = 0 := by
          intro hzz
          exact hsm ((Nat.div_eq_zero_iff (by norm_num)).1 hzz)
        have hz2 : m / 10 / 10 = 0 := by
          rw [Nat.div_div_eq_div_mul]
          exact (Nat.div_eq_zero_iff (by norm_num)).2 hm
        obtain ⟨f, rfl⟩ : ∃ f, m = f + 1 := ⟨m - 1, by omega⟩
        have hstep : Nat.toDigitsCore 10 (f + 1 + 1) (f + 1) []
            = Nat.toDigitsCore 10 (f + 1) ((f + 1) / 10) [Nat.digitChar ((f + 1) % 10)] := by
          simp only [Nat.toDigitsCore]
          simp [hz]
        have hstep2 : Nat.toDigitsCore 10 (f + 1) ((f + 1) / 10) [Nat.digitChar ((f + 1) % 10)]
            = [Nat.digitChar ((f + 1) / 10 % 10), Nat.digitChar ((f + 1) % 10)] := by
          cases hf : f + 1 with
          | zero => omega
          | succ g =>
            simp only [Nat.toDigitsCore]
            simp [hz2, ← hf]
        have hdiv : (f + 1) / 10 % 10 = (f + 1) / 10 := by
          apply Nat.mod_eq_of_lt
          have hzz : (f + 1) / 10 / 10 = 0 := hz2
          exact (Nat.div_eq_zero_iff (by norm_num)).1 hzz
        apply String.ext
        simp [Nat.repr, Nat.toDigits, List.asString, hstep, hstep2, hdiv]
      rw [h2] at hk
      obtain ⟨hk10, hk100, hdig1, hdig2⟩ := nat_repr_two_digit k _ _ hk
      have e1 := digitChar_inj_lt (k / 10) (m / 10) (by omega) (by omega) hdig1
      have e2 := digitChar_inj_lt (k % 10) (m % 10) (by omega) (by omega) hdig2
      have : k = m := by omega
      simp [this]
  | negSucc k =>
    exfalso
    have hd := congrArg String.data h
    have hds : (toString (Int.negSucc k)).data
        = '-' :: (Nat.repr (k + 1)).data := rfl
    rw [hds] at hd
    by_cases hsm : m < 10
    · have hz : m / 10 = 0 := (Nat.div_eq_zero_iff (by norm_num)).2 hsm
      have hone : Nat.toDigitsCore 10 (m + 1) m [] = [Nat.digitChar (m % 10)] := by
        simp only [Nat.toDigitsCore]
        simp [hz]
      have : (Nat.repr m).data = [Nat.digitChar (m % 10)] := by
        simp [Nat.repr, Nat.toDigits, List.asString, hone]
      rw [this] at hd
      have hc := List.head_eq_of_cons_eq hd
      have hm10 : m % 10 < 10 := Nat.mod_lt _ (by norm_num)
      revert hc
      interval_cases h10 : m % 10 <;> decide
    · have hz : ¬ m / 10 = 0 := fun hzz =>
        hsm ((Nat.div_eq_zero_iff (by norm_num)).1 hzz)
      have hz2 : m / 10 / 10 = 0 := by
        rw [Nat.div_div_eq_div_mul]
        exact (Nat.div_eq_zero_iff (by norm_num)).2 hm
      obtain ⟨f, rfl⟩ : ∃ f, m = f + 1 := ⟨m - 1, by omega⟩
      have hstep : Nat.toDigitsCore 10 (f + 1 + 1) (f + 1) []
          = Nat.toDigitsCore 10 (f + 1) ((f + 1) / 10) [Nat.digitChar ((f + 1) % 10)] := by
        simp only [Nat.toDigitsCore]
        simp [hz]
      have hstep2 : Nat.toDigitsCore 10 (f + 1) ((f + 1) / 10) [Nat.digitChar ((f + 1) % 10)]
          = [Nat.digitChar ((f + 1) / 10 % 10), Nat.digitChar ((f + 1) % 10)] := by
        cases hf : f + 1 with
        | zero => omega
        | succ g =>
          simp only [Nat.toDigitsCore]
          simp [hz2, ← hf]
      have : (Nat.repr (f + 1)).data
          = [Nat.digitChar ((f + 1) / 10 % 10), Nat.digitChar ((f + 1) % 10)] := by
        simp [Nat.repr, Nat.toDigits, List.asString, hstep, hstep2]
      rw [this] at hd
      have hc := List.head_eq_of_cons_eq hd
      have hm10 : (f + 1) / 10 % 10 < 10 := Nat.mod_lt _ (by norm_num)
      revert hc
      interval_cases h10 : (f + 1) / 10 % 10 <;> decide

theorem append_min_inv (n : Int) (m : Nat) (hm : m < 100)
    (h : toString n ++ "min" = Nat.repr m ++ "min") : n = (m : Int) := by
  have hdata := congrArg String.data h
  simp only [String.data_append] at hdata
  exact int_toString_nat n m hm (String.ext (List.append_cancel_right hdata))

/-- C6: for the intraday operation, the interval parameter is accepted exactly
when it is a string equal to a catalog-valid interval token, or an integer `n`
such that the string `"{n}min"` is a catalog-valid token; every other interval
value makes the operation return no result (`none`) without issuing any
request. -/
theorem claim6_intraday_interval (cfg : ClientConfig) (symbol : String)
    (interval : IntervalArg) :
    (intraday specCatalog cfg symbol interval).isSome
      ↔ (∃ s, interval = IntervalArg.str s ∧ s ∈ specCatalog.series_interval)
        ∨ (∃ n, interval = IntervalArg.int n
            ∧ (toString n ++ "min") ∈ specCatalog.series_interval) := by
  cases interval with
  | str s =>
    by_cases hs : s ∈ specCatalog.series_interval
    · simp [intraday, hs]
    · simp [intraday, hs]
  | int n =>
    constructor
    · intro h
      right
      refine ⟨n, rfl, ?_⟩
      have hn : n ∈ intradayMinutes specCatalog := by
        by_contra hc
        simp [intraday, hc] at h
      have hmins : intradayMinutes specCatalog = [1, 5, 15, 30, 60] := by decide
      rw [hmins] at hn
      fin_cases hn <;> decide
    · intro h
      rcases h with ⟨s, hs, _⟩ | ⟨m, hm, hmem⟩
      · exact absurd hs (by simp)
      · have hnm : n = m := by
          injection hm with h'
        subst hnm
        have hn : n ∈ intradayMinutes specCatalog := by
          rw [show specCatalog.series_interval
            = ["1min", "5min", "15min", "30min", "60min"] from rfl] at hmem
          have hmins : intradayMinutes specCatalog = [1, 5, 15, 30, 60] := by decide
          rw [hmins]
          simp only [List.mem_cons, List.not_mem_nil, or_false] at hmem
          rcases hmem with h1 | h1 | h1 | h1 | h1
          · rw [append_min_inv n 1 (by norm_num) (h1.trans (by decide))]
            decide
          · rw [append_min_inv n 5 (by norm_num) (h1.trans (by decide))]
            decide
          · rw [append_min_inv n 15 (by norm_num) (h1.trans (by decide))]
            decide
          · rw [append_min_inv n 30 (by norm_num) (h1.trans (by decide))]
            decide
          · rw [append_min_inv n 60 (by norm_num) (h1.trans (by decide))]
            decide
        simp [intraday, hn]

/-- C6 witness: interval `5` (an integer whose `"5min"` token is
catalog-valid) is accepted, and interval `7` aborts the call with no
request. -/
theorem claim6_intraday_interval_witness :
    (intraday specCatalog stdConfig "msft" (IntervalArg.int 5)).isSome
    ∧ intraday specCatalog stdConfig "msft" (IntervalArg.int 7) = none := by
  constructor
  · exact (claim6_intraday_interval stdConfig "msft" (IntervalArg.int 5)).2
      (Or.inr ⟨5, rfl, by decide⟩)
  · have h := claim6_intraday_interval stdConfig "msft" (IntervalArg.int 7)
    have hno : ¬ (intraday specCatalog stdConfig "msft" (IntervalArg.int 7)).isSome := by
      intro hs
      rcases h.1 hs with ⟨s, hcon, _⟩ | ⟨m, hcon, hmem⟩
      · cases hcon
      · have : (7 : Int) = m := by injection hcon
        rw [← this] at hmem
        exact absurd hmem (by decide)
    exact Option.not_isSome_iff_eq_none.1 hno
